import Mathlib

/-!
Verification of the natural-language specification of `auto_pr_writer.py`
against a shallow embedding of its code.

The embedding models, faithfully to the Python source:
  * a JSON value type with a serializer in the style of `json.dumps`
    (default separators) and a parser in the style of `json.loads`
    (the numeric fragment is restricted to integer numerals, which is the
    only numeric shape the repository's strings ever exercise);
  * `load_file_from` over an explicit file-system/HTTP environment,
    recording the HTTP requests it issues as events;
  * `extract_custom_instruction`, i.e. the Python regex search
    for the raw pattern at-sign + bot name + one-or-more whitespace +
    a greedy dot-star capture (`.` does not cross a line feed);
  * `create_invocation_payload` with its f-string built arguments object;
  * `contains_skip_instruction`, i.e. the regex word-boundary search for
    the token skip, case-insensitively;
  * `write_to_github_output` with a real SHA-256 for the delimiter;
  * the `__main__` argument resolution and the skip early exit;
  * `generate_pr_text` as a trace-producing function over an environment,
    recording HTTP GETs, the comparison-service call and the
    chat-completion call as events.
-/

/-! ## JSON values, rendering (json.dumps) and parsing (json.loads) -/

inductive Json where
  | null : Json
  | bool (b : Bool) : Json
  | num (n : Int) : Json
  | str (s : String) : Json
  | arr (elems : List Json) : Json
  | obj (members : List (String × Json)) : Json

/-- Hexadecimal digit test (either case, as Python accepts in u-escapes). -/
def isHexDigitChar (c : Char) : Bool :=
  c.isDigit || (97 ≤ c.toNat && c.toNat ≤ 102) || (65 ≤ c.toNat && c.toNat ≤ 70)

/-- Hexadecimal digit character for a value below 16 (lower case, as in
Python's hex rendering). -/
def hexChar (n : Nat) : Char :=
  if n < 10 then Char.ofNat (48 + n) else Char.ofNat (87 + n)

/-- The escaping `json.dumps` applies inside a string literal
(default `ensure_ascii=True`: non-ASCII characters become u-escapes;
this model covers code points below 0x10000, the repository only ever
serializes ASCII). -/
def escapeChar (c : Char) : List Char :=
  if c = '"' then ['\\', '"']
  else if c = '\\' then ['\\', '\\']
  else if c = '\n' then ['\\', 'n']
  else if c = '\t' then ['\\', 't']
  else if c = '\r' then ['\\', 'r']
  else if c.toNat < 32 || c.toNat > 126 then
    ['\\', 'u', hexChar (c.toNat / 4096 % 16), hexChar (c.toNat / 256 % 16),
     hexChar (c.toNat / 16 % 16), hexChar (c.toNat % 16)]
  else [c]

/-- A JSON string literal as `json.dumps` writes it. -/
def renderString (s : String) : String :=
  String.mk ('"' :: s.data.flatMap escapeChar ++ ['"'])

mutual

/-- `json.dumps` with its default separators. -/
def renderJson : Json → String
  | Json.null => "null"
  | Json.bool true => "true"
  | Json.bool false => "false"
  | Json.num n => toString n
  | Json.str s => renderString s
  | Json.arr l => "[" ++ renderElems l ++ "]"
  | Json.obj m => "\x7b" ++ renderMembers m ++ "\x7d"

def renderElems : List Json → String
  | [] => ""
  | [x] => renderJson x
  | x :: y :: rest => renderJson x ++ ", " ++ renderElems (y :: rest)

def renderMembers : List (String × Json) → String
  | [] => ""
  | [(k, v)] => renderString k ++ ": " ++ renderJson v
  | (k, v) :: m :: rest =>
      renderString k ++ ": " ++ renderJson v ++ ", " ++ renderMembers (m :: rest)

end

/-- JSON insignificant whitespace. -/
def jsonWs (c : Char) : Bool :=
  c = ' ' || c = '\t' || c = '\n' || c = '\r'

def skipWs (s : List Char) : List Char :=
  s.dropWhile jsonWs

/-- Body of a JSON string literal after the opening quote: returns the decoded
content and the remainder after the closing quote. Raw control characters are
rejected as `json.loads` does in its default strict mode. -/
def parseStringBody : List Char → Option (List Char × List Char)
  | [] => none
  | c :: rest =>
    if c = '"' then some ([], rest)
    else if c = '\\' then
      match rest with
      | [] => none
      | e :: rest2 =>
        if e = 'u' then
          match rest2 with
          | h1 :: h2 :: h3 :: h4 :: rest3 =>
            if isHexDigitChar h1 && isHexDigitChar h2 && isHexDigitChar h3 && isHexDigitChar h4 then
              match parseStringBody rest3 with
              | some (tail, rem) =>
                  some (Char.ofNat (4096 * hexVal h1 + 256 * hexVal h2 +
                        16 * hexVal h3 + hexVal h4) :: tail, rem)
              | none => none
            else none
          | _ => none
        else
          match unescape e with
          | some d =>
            match parseStringBody rest2 with
            | some (tail, rem) => some (d :: tail, rem)
            | none => none
          | none => none
    else if c.toNat < 32 then none
    else
      match parseStringBody rest with
      | some (tail, rem) => some (c :: tail, rem)
      | none => none
where
  hexVal (c : Char) : Nat :=
    if c.isDigit then c.toNat - 48
    else if 97 ≤ c.toNat && c.toNat ≤ 102 then c.toNat - 87
    else if 65 ≤ c.toNat && c.toNat ≤ 70 then c.toNat - 55
    else 0
  unescape (e : Char) : Option Char :=
    if e = '"' then some '"'
    else if e = '\\' then some '\\'
    else if e = '/' then some '/'
    else if e = 'b' then some (Char.ofNat 8)
    else if e = 'f' then some (Char.ofNat 12)
    else if e = 'n' then some '\n'
    else if e = 'r' then some '\r'
    else if e = 't' then some '\t'
    else none

/-- Integer numeral: an optional minus sign and a nonempty digit run, rejected
when a fraction or exponent follows (the model's numeric fragment). -/
def parseIntNumeral (s : List Char) : Option (Json × List Char) :=
  match s with
  | '-' :: rest => (core rest).map (fun p => (Json.num (-(p.1 : Int)), p.2))
  | _ => (core s).map (fun p => (Json.num (p.1 : Int), p.2))
where
  core (t : List Char) : Option (Nat × List Char) :=
    let digits := t.takeWhile Char.isDigit
    let rest := t.dropWhile Char.isDigit
    if digits.isEmpty then none
    else
      match rest with
      | '.' :: _ => none
      | 'e' :: _ => none
      | 'E' :: _ => none
      | _ => some (digits.foldl (fun acc c => 10 * acc + (c.toNat - 48)) 0, rest)

mutual

/-- One JSON value starting at `s` (after optional whitespace); the fuel only
bounds the nesting recursion and is in practice at least the input length. -/
def parseValue (fuel : Nat) (s : List Char) : Option (Json × List Char) :=
  match fuel with
  | 0 => none
  | fuel + 1 =>
    match skipWs s with
    | '\x7b' :: rest =>
      match skipWs rest with
      | '\x7d' :: rest2 => some (Json.obj [], rest2)
      | rest2 => parseMembers fuel rest2 []
    | '[' :: rest =>
      match skipWs rest with
      | ']' :: rest2 => some (Json.arr [], rest2)
      | rest2 => parseElems fuel rest2 []
    | '"' :: rest =>
      match parseStringBody rest with
      | some (content, rem) => some (Json.str (String.mk content), rem)
      | none => none
    | 't' :: 'r' :: 'u' :: 'e' :: rest => some (Json.bool true, rest)
    | 'f' :: 'a' :: 'l' :: 's' :: 'e' :: rest => some (Json.bool false, rest)
    | 'n' :: 'u' :: 'l' :: 'l' :: rest => some (Json.null, rest)
    | rest => parseIntNumeral rest

/-- The members of an object, after the opening brace of a nonempty object or
after a comma. -/
def parseMembers (fuel : Nat) (s : List Char) (acc : List (String × Json)) :
    Option (Json × List Char) :=
  match fuel with
  | 0 => none
  | fuel + 1 =>
    match skipWs s with
    | '"' :: rest =>
      match parseStringBody rest with
      | some (key, r1) =>
        match skipWs r1 with
        | ':' :: r2 =>
          match parseValue fuel r2 with
          | some (v, r3) =>
            match skipWs r3 with
            | ',' :: r4 => parseMembers fuel r4 (acc ++ [(String.mk key, v)])
            | '\x7d' :: r4 => some (Json.obj (acc ++ [(String.mk key, v)]), r4)
            | _ => none
          | none => none
        | _ => none
      | none => none
    | _ => none

/-- The elements of an array, after the opening bracket of a nonempty array or
after a comma. -/
def parseElems (fuel : Nat) (s : List Char) (acc : List Json) :
    Option (Json × List Char) :=
  match fuel with
  | 0 => none
  | fuel + 1 =>
    match parseValue fuel s with
    | some (v, r1) =>
      match skipWs r1 with
      | ',' :: r2 => parseElems fuel r2 (acc ++ [v])
      | ']' :: r2 => some (Json.arr (acc ++ [v]), r2)
      | _ => none
    | none => none

end

/-- `json.loads`: one value, nothing but whitespace after it. -/
def Json.parse (s : String) : Option Json :=
  match parseValue (s.length + 1) s.data with
  | some (j, rest) => if skipWs rest = [] then some j else none
  | none => none

/-- Attribute access `obj[key]` on a parsed JSON object, `none` both when the
value is not an object and when the key is absent (Python would raise
`TypeError` or `KeyError` respectively). -/
def Json.lookup (j : Json) (key : String) : Option Json :=
  match j with
  | Json.obj members => (members.find? (fun kv => kv.1 = key)).map (fun kv => kv.2)
  | _ => none

/-- The top-level keys of a JSON object (used to discriminate object shapes). -/
def topKeys : Json → List String
  | Json.obj members => members.map (fun kv => kv.1)
  | _ => []

/-! ## Chat messages (haystack `ChatMessage`) -/

inductive Role where
  | system : Role
  | user : Role
  | assistant : Role
deriving DecidableEq

structure ChatMessage where
  role : Role
  content : String
deriving DecidableEq

def ChatMessage.from_system (s : String) : ChatMessage := ⟨Role.system, s⟩
def ChatMessage.from_user (s : String) : ChatMessage := ⟨Role.user, s⟩
def ChatMessage.from_assistant (s : String) : ChatMessage := ⟨Role.assistant, s⟩

/-! ## Effects: the outbound calls the script makes -/

/-- The observable side effects of one run of `generate_pr_text`: the HTTP
GETs of `load_file_from`, the one branch-comparison service invocation, and
the one chat-completion invocation. -/
inductive Event where
  | httpGet (url : String) : Event
  | serviceCall (payload : String) : Event
  | chatCall (messages : List ChatMessage) : Event
deriving DecidableEq

/-- Outcome of `requests.get(location)`: a response with a status code and a
body text, or a raised transport exception. -/
inductive FetchResult where
  | ok (status : Nat) (body : String) : FetchResult
  | exn : FetchResult
deriving DecidableEq

/-- Outcome of `open(location).read()` on an existing path: the content, or a
raised I/O exception. -/
inductive ReadResult where
  | content (s : String) : ReadResult
  | exn : ReadResult
deriving DecidableEq

/-- The world `load_file_from` runs against: what a GET of each URL returns,
which paths exist, and what reading an existing path yields. -/
structure FS where
  http : String → FetchResult
  pathExists : String → Bool
  readFile : String → ReadResult

/-- `a` is a prefix of `b` (structural test on characters). -/
def isPrefixList : List Char → List Char → Bool
  | [], _ => true
  | _ :: _, [] => false
  | p :: ps, c :: cs => if p = c then isPrefixList ps cs else false

/-- `location.startswith("http://") or location.startswith("https://")`. -/
def isUrl (loc : String) : Bool :=
  isPrefixList "http://".data loc.data || isPrefixList "https://".data loc.data

/-- One iteration of the `load_file_from` loop on one candidate: the events it
causes and the content it obtains, `none` when the candidate is skipped
(non-200 status, transport error, absent path, or unreadable file — all
falling through to the next candidate). -/
def attempt (fs : FS) (loc : String) : List Event × Option String :=
  if isUrl loc then
    ([Event.httpGet loc],
      match fs.http loc with
      | FetchResult.ok status body => if status = 200 then some body else none
      | FetchResult.exn => none)
  else if fs.pathExists loc then
    ([], match fs.readFile loc with
         | ReadResult.content s => some s
         | ReadResult.exn => none)
  else ([], none)

/-- `load_file_from(locations)`: first successful candidate wins; raises
`FileNotFoundError` (modelled as `Except.error ()`) when every candidate
fails. The first component records the HTTP requests issued. -/
def load_file_from (fs : FS) : List String → List Event × Except Unit String
  | [] => ([], Except.error ())
  | loc :: rest =>
    match (attempt fs loc).2 with
    | some s => ((attempt fs loc).1, Except.ok s)
    | none =>
      ((attempt fs loc).1 ++ (load_file_from fs rest).1, (load_file_from fs rest).2)

/-- A candidate fails, in the words of the spec: a URL entry yields a non-200
status or a transport error; a path entry is absent or unreadable. -/
def entryFails (fs : FS) (loc : String) : Prop :=
  if isUrl loc then
    fs.http loc = FetchResult.exn ∨ ∀ body, fs.http loc ≠ FetchResult.ok 200 body
  else
    fs.pathExists loc = false ∨ fs.readFile loc = ReadResult.exn

/-- A candidate succeeds with content `c`, in the words of the spec. -/
def entryYields (fs : FS) (loc : String) (c : String) : Prop :=
  if isUrl loc then fs.http loc = FetchResult.ok 200 c
  else fs.pathExists loc = true ∧ fs.readFile loc = ReadResult.content c

/-! ## Instruction extractor: `extract_custom_instruction` -/

/-- Python's `\s` on ASCII text: space, tab, line feed, carriage return,
vertical tab, form feed. -/
def pySpace (c : Char) : Bool :=
  c = ' ' || c = '\t' || c = '\n' || c = '\r' || c = '\x0b' || c = '\x0c'

/-- The capture of the greedy `(.*)` after the greedy whitespace run: Python's
`.` matches every character except the line feed. -/
def captureFrom (s : List Char) : List Char :=
  (s.dropWhile pySpace).takeWhile (fun c => c ≠ '\n')

/-- Try the whole pattern at the current position: the literal (escaped) bot
mention, then at least one whitespace character, then the capture. -/
def matchTail : List Char → List Char → Option (List Char)
  | [], [] => none
  | [], c :: rest => if pySpace c then some (captureFrom (c :: rest)) else none
  | _ :: _, [] => none
  | p :: ps, c :: rest => if c = p then matchTail ps rest else none

/-- `re.search` scanning: leftmost position whose match attempt succeeds. -/
def searchMention (pat : List Char) : List Char → Option (List Char)
  | [] => none
  | c :: rest =>
    match matchTail pat (c :: rest) with
    | some g => some g
    | none => searchMention pat rest

/-- `extract_custom_instruction(bot_name, user_instruction)`. -/
def extract_custom_instruction (bot_name user_instruction : String) : String :=
  match searchMention ('@' :: bot_name.data) user_instruction.data with
  | some g => String.mk g
  | none => ""

/-- Modelled from the claim's words for comparison: the same search, but
capturing the remainder to the end of the string (as if `.` crossed line
feeds). -/
def matchTailToEnd : List Char → List Char → Option (List Char)
  | [], [] => none
  | [], c :: rest => if pySpace c then some ((c :: rest).dropWhile pySpace) else none
  | _ :: _, [] => none
  | p :: ps, c :: rest => if c = p then matchTailToEnd ps rest else none

def searchMentionToEnd (pat : List Char) : List Char → Option (List Char)
  | [] => none
  | c :: rest =>
    match matchTailToEnd pat (c :: rest) with
    | some g => some g
    | none => searchMentionToEnd pat rest

/-- Modelled from the claim's words: remainder of the trigger text from the
first bot mention to the end of the string. -/
def extractToEndOfString (bot_name user_instruction : String) : String :=
  match searchMentionToEnd ('@' :: bot_name.data) user_instruction.data with
  | some g => String.mk g
  | none => ""

/-- The head of `s` exists and is a whitespace character. -/
def headIsSpace (s : List Char) : Bool :=
  match s with
  | c :: _ => pySpace c
  | [] => false

/-- Position `i` of `s` carries the mention pattern followed by at least one
whitespace character. -/
def mentionAtB (pat s : List Char) (i : Nat) : Bool :=
  decide ((s.drop i).take pat.length = pat) && headIsSpace (s.drop (i + pat.length))

/-- The position of the first (leftmost) matchable mention. -/
def firstMention (pat s : List Char) : Option Nat :=
  (List.range s.length).find? (mentionAtB pat s)

/-- Position-based characterization of the extractor (the amended claim): at
the first matchable mention, skip the maximal whitespace run and capture up to
the first line feed after it, or to the end of the string. -/
def extractSpec (bot_name user_instruction : String) : String :=
  let pat := '@' :: bot_name.data
  match firstMention pat user_instruction.data with
  | some i => String.mk (captureFrom (user_instruction.data.drop (i + pat.length)))
  | none => ""

/-! ## `create_invocation_payload` -/

/-- The f-string of `create_invocation_payload` building the arguments object,
character for character (no escaping of the interpolated values). -/
def argumentsString (base_ref head_ref repository project : String) : String :=
  "\x7b\"parameters\": \x7b\"basehead\": \"" ++ base_ref ++ "..." ++ head_ref ++
  "\", \"owner\": \"" ++ repository ++ "\", \"repo\": \"" ++ project ++ "\"\x7d\x7d"

/-- The invocation payload dictionary (a Function Invocation Descriptor). -/
def create_invocation_payload (base_ref head_ref repository project : String) : Json :=
  Json.obj
    [("id", Json.str "some_irrelevant_id"),
     ("function", Json.obj
        [("arguments", Json.str (argumentsString base_ref head_ref repository project)),
         ("name", Json.str "compare_branches")]),
     ("type", Json.str "function")]

/-! ## `contains_skip_instruction` -/

/-- Python's `\w` on ASCII text: letters, digits, underscore. -/
def isWordChar (c : Char) : Bool :=
  c.isAlphanum || c = '_'

/-- Case-insensitive literal match of the four letters of the token at the
head of `s`; returns what follows. -/
def skipTokenAt : List Char → Option (List Char)
  | a :: b :: c :: d :: rest =>
    if a.toLower = 's' && b.toLower = 'k' && c.toLower = 'i' && d.toLower = 'p' then
      some rest
    else none
  | _ => none

/-- `\b` before the token: start of string or a non-word character. -/
def boundaryBefore : Option Char → Bool
  | none => true
  | some c => !(isWordChar c)

/-- `\b` after the token: end of string or a non-word character. -/
def boundaryAfter : List Char → Bool
  | [] => true
  | c :: _ => !(isWordChar c)

/-- One match attempt of `\bskip\b` at the current position; `prev` is the
character before that position. -/
def matchSkipHere (prev : Option Char) (s : List Char) : Bool :=
  match skipTokenAt s with
  | some after => boundaryBefore prev && boundaryAfter after
  | none => false

/-- `re.search` scanning for `\bskip\b` (IGNORECASE). -/
def skipSearch (prev : Option Char) : List Char → Bool
  | [] => false
  | c :: rest => matchSkipHere prev (c :: rest) || skipSearch (some c) rest

/-- `contains_skip_instruction(text)`. -/
def contains_skip_instruction (text : String) : Bool :=
  skipSearch none text.data

/-- The word `w` is the token skip up to case. -/
def IsSkipWord (w : List Char) : Prop :=
  w.map Char.toLower = ['s', 'k', 'i', 'p']

/-- The last character of `l`, or `prev` when `l` is empty (the character
preceding a decomposition point). -/
def lastOr (prev : Option Char) : List Char → Option Char
  | [] => prev
  | c :: rest => lastOr (some c) rest

/-- The claim's words: the whole-word token skip (case-insensitive, word
boundaries on both sides) appears somewhere in the text. -/
def SkipSpec (text : String) : Prop :=
  ∃ l w r, text.data = l ++ w ++ r ∧ IsSkipWord w ∧
    boundaryBefore (lastOr none l) = true ∧ boundaryAfter r = true

/-! ## Command-line surface of `__main__` -/

/-- How the triple (repository, base ref, head ref) is obtained. -/
inductive ArgResolution where
  | fromEnv : ArgResolution
  | fromCli (repo base head : String) : ArgResolution
  | unpackError : ArgResolution
deriving DecidableEq

/-- Lines 199-204 of the script: `sys.argv` is the script name followed by
`cli_args`; when `len(sys.argv) < 2` the three values come from environment
variables, otherwise the three-target unpacking of `sys.argv[1:4]` either
binds the first three positional arguments or raises `ValueError`. -/
def resolve_repo_refs (cli_args : List String) : ArgResolution :=
  if cli_args.length + 1 < 2 then ArgResolution.fromEnv
  else
    match cli_args with
    | r :: b :: h :: _ => ArgResolution.fromCli r b h
    | _ => ArgResolution.unpackError

/-! ## Skip early exit of `__main__` -/

/-- Lines 183-184: the bot name defaults when the variable is unset, empty or
otherwise falsy. -/
def effective_bot_name (env_bot : Option String) : String :=
  match env_bot with
  | some s => if s = "" then "auto-pr-writer-bot" else s
  | none => "auto-pr-writer-bot"

/-- Lines 191-196: `custom_user_instruction` is extracted only from a truthy
trigger text, and the clean exit 0 is taken when it is truthy and contains the
skip token. `true` means the early exit is taken before any pipeline work. -/
def skip_early_exit (bot_name : String) (user_message : Option String) : Bool :=
  match user_message with
  | none => false
  | some s =>
    if s = "" then false
    else
      let ci := extract_custom_instruction bot_name s
      if ci = "" then false else contains_skip_instruction ci

/-! ## SHA-256 (`hashlib.sha256(...).hexdigest()`), on Nat with mod 2^32 -/

def w32 (n : Nat) : Nat := n % 4294967296

def rotr32 (k n : Nat) : Nat := w32 (n / 2 ^ k + n * 2 ^ (32 - k))

def shaCh (e f g : Nat) : Nat := (e &&& f) ^^^ ((4294967295 - w32 e) &&& g)

def shaMaj (a b c : Nat) : Nat := (a &&& b) ^^^ (a &&& c) ^^^ (b &&& c)

def bigSig0 (a : Nat) : Nat := rotr32 2 a ^^^ rotr32 13 a ^^^ rotr32 22 a

def bigSig1 (e : Nat) : Nat := rotr32 6 e ^^^ rotr32 11 e ^^^ rotr32 25 e

def smallSig0 (x : Nat) : Nat := rotr32 7 x ^^^ rotr32 18 x ^^^ (x / 2 ^ 3)

def smallSig1 (x : Nat) : Nat := rotr32 17 x ^^^ rotr32 19 x ^^^ (x / 2 ^ 10)

/-- The 64 round constants (decimal). -/
def K256 : List Nat :=
  [1116352408, 1899447441, 3049323471, 3921009573,
   961987163, 1508970993, 2453635748, 2870763221,
   3624381080, 310598401, 607225278, 1426881987,
   1925078388, 2162078206, 2614888103, 3248222580,
   3835390401, 4022224774, 264347078, 604807628,
   770255983, 1249150122, 1555081692, 1996064986,
   2554220882, 2821834349, 2952996808, 3210313671,
   3336571891, 3584528711, 113926993, 338241895,
   666307205, 773529912, 1294757372, 1396182291,
   1695183700, 1986661051, 2177026350, 2456956037,
   2730485921, 2820302411, 3259730800, 3345764771,
   3516065817, 3600352804, 4094571909, 275423344,
   430227734, 506948616, 659060556, 883997877,
   958139571, 1322822218, 1537002063, 1747873779,
   1955562222, 2024104815, 2227730452, 2361852424,
   2428436474, 2756734187, 3204031479, 3329325298]

/-- The eight working registers / hash words. -/
structure Sha8 where
  a : Nat
  b : Nat
  c : Nat
  d : Nat
  e : Nat
  f : Nat
  g : Nat
  h : Nat

def Sha8.toList (x : Sha8) : List Nat :=
  [x.a, x.b, x.c, x.d, x.e, x.f, x.g, x.h]

/-- The initial hash value (decimal). -/
def shaH0 : Sha8 :=
  ⟨1779033703, 3144134277, 1013904242, 2773480762,
   1359893119, 2600822924, 528734635, 1541459225⟩

/-- Big-endian 32-bit words from bytes (fuel = list length). -/
def bytesToWords : Nat → List Nat → List Nat
  | 0, _ => []
  | _, [] => []
  | fuel + 1, b0 :: b1 :: b2 :: b3 :: rest =>
      (16777216 * b0 + 65536 * b1 + 256 * b2 + b3) :: bytesToWords fuel rest
  | _ + 1, _ :: _ => []

/-- Extend the 16 message-schedule words to 64. -/
def extendSchedule : List Nat → Nat → List Nat
  | ws, 0 => ws
  | ws, n + 1 =>
      let l := ws.length
      let x := w32 (smallSig1 (ws.getD (l - 2) 0) + ws.getD (l - 7) 0 +
                    smallSig0 (ws.getD (l - 15) 0) + ws.getD (l - 16) 0)
      extendSchedule (ws ++ [x]) n

/-- One compression round, fed the pair (round constant, schedule word). -/
def shaRound (r : Sha8) (kw : Nat × Nat) : Sha8 :=
  let t1 := w32 (r.h + bigSig1 r.e + shaCh r.e r.f r.g + kw.1 + kw.2)
  let t2 := w32 (bigSig0 r.a + shaMaj r.a r.b r.c)
  ⟨w32 (t1 + t2), r.a, r.b, r.c, w32 (r.d + t1), r.e, r.f, r.g⟩

/-- Compress one 64-byte block into the hash state. -/
def compressBlock (hs : Sha8) (block : List Nat) : Sha8 :=
  let ws := extendSchedule (bytesToWords block.length block) 48
  let r := (K256.zip ws).foldl shaRound hs
  ⟨w32 (hs.a + r.a), w32 (hs.b + r.b), w32 (hs.c + r.c), w32 (hs.d + r.d),
   w32 (hs.e + r.e), w32 (hs.f + r.f), w32 (hs.g + r.g), w32 (hs.h + r.h)⟩

/-- Merkle-Damgård padding to a multiple of 64 bytes. -/
def sha256pad (msg : List Nat) : List Nat :=
  let L := msg.length
  let k := (119 - L % 64) % 64
  let bl := 8 * L
  msg ++ 128 :: List.replicate k 0 ++
    [bl / 2 ^ 56 % 256, bl / 2 ^ 48 % 256, bl / 2 ^ 40 % 256, bl / 2 ^ 32 % 256,
     bl / 2 ^ 24 % 256, bl / 2 ^ 16 % 256, bl / 2 ^ 8 % 256, bl % 256]

/-- 64-byte blocks (fuel = list length). -/
def toBlocksAux : Nat → List Nat → List (List Nat)
  | 0, _ => []
  | _, [] => []
  | fuel + 1, x :: rest => (x :: rest).take 64 :: toBlocksAux fuel ((x :: rest).drop 64)

/-- The hash state after absorbing a byte message. -/
def sha256state (msg : List Nat) : Sha8 :=
  (toBlocksAux (sha256pad msg).length (sha256pad msg)).foldl compressBlock shaH0

/-- Eight lower-case hex digits of a 32-bit word. -/
def wordHex (word : Nat) : List Char :=
  [hexChar (word / 2 ^ 28 % 16), hexChar (word / 2 ^ 24 % 16),
   hexChar (word / 2 ^ 20 % 16), hexChar (word / 2 ^ 16 % 16),
   hexChar (word / 2 ^ 12 % 16), hexChar (word / 2 ^ 8 % 16),
   hexChar (word / 2 ^ 4 % 16), hexChar (word % 16)]

/-- `hashlib.sha256(text.encode()).hexdigest()` (the texts hashed by the
script are ASCII, so the code-point bytes are the UTF-8 encoding). -/
def sha256hexdigest (text : String) : String :=
  String.mk (List.flatten ((sha256state (text.data.map Char.toNat)).toList.map wordHex))

/-! ## `write_to_github_output` -/

/-- The delimiter computed once per write: the hash of the fixed seed. -/
def github_output_delimiter : String :=
  sha256hexdigest "some_random_data"

/-- `write_to_github_output(output_name, output_value)`: the strings appended
to the GITHUB_OUTPUT file, in order; nothing is written when the variable is
unset or falsy. -/
def write_to_github_output (github_output : Option String) (output_name output_value : String) :
    List String :=
  match github_output with
  | none => []
  | some p =>
    if p = "" then []
    else
      [output_name ++ "<<" ++ github_output_delimiter ++ "\n",
       output_value ++ "\n",
       github_output_delimiter ++ "\n"]

/-! ## `generate_pr_text` as a traced pipeline -/

/-- Python's `str.split("/")`, on the character list. -/
def splitSlash : List Char → List (List Char)
  | [] => [[]]
  | c :: rest =>
    match splitSlash rest with
    | seg :: segs => if c = '/' then [] :: seg :: segs else (c :: seg) :: segs
    | [] => [[]]

/-- `github_repo.split("/")[0]` and `github_repo.split("/")[1]`: the owner and
project segments, `none` when indexing segment 1 raises `IndexError`. -/
def repoOwnerProject (github_repo : String) : Option (String × String) :=
  match splitSlash github_repo.data with
  | a :: b :: _ => some (String.mk a, String.mk b)
  | _ => none

/-- Lines 92-98: the message sequence handed to the chat-completion model. A
falsy (absent or empty) custom instruction contributes no third message. -/
def compose_prompt_messages (files : Json) (system_prompt_text : String)
    (custom_instruction : Option String) : List ChatMessage :=
  let diff_message := ChatMessage.from_user (renderJson files)
  let system_message := ChatMessage.from_system system_prompt_text
  match custom_instruction with
  | some s =>
    if s = "" then [system_message] ++ [diff_message]
    else [system_message] ++ [diff_message] ++ [ChatMessage.from_user s]
  | none => [system_message] ++ [diff_message]

/-- The runtime surroundings of one `generate_pr_text` call: the artifact
world, the system-message override variable, the body of the one reply
message of the comparison service, and the one reply of the chat model. -/
structure PrEnv where
  fs : FS
  system_message_env : Option String
  service_reply : String
  llm_reply : ChatMessage

/-- The Python exceptions the modelled fragment can raise. -/
inductive PyErr where
  | fileNotFound : PyErr
  | jsonDecodeError : PyErr
  | indexError : PyErr
  | keyError : PyErr
deriving DecidableEq

def compare_spec_locations : List String :=
  ["github_compare_spec.json", "https://bit.ly/github_compare"]

def system_prompt_locations : List String :=
  ["system_prompt.txt", "https://bit.ly/auto_pr_writer_system_prompt"]

/-- Line 66: the environment variable wins when truthy, else the loader
(`os.environ.get(...) or load_file_from(...)`). -/
def resolve_system_prompt (env : PrEnv) : List Event × Except Unit String :=
  match env.system_message_env with
  | some s => if s = "" then load_file_from env.fs system_prompt_locations else ([], Except.ok s)
  | none => load_file_from env.fs system_prompt_locations

/-- `json.dumps([invocation_payload])`, the content of the synthetic assistant
message submitted to the service connector. -/
def invocationMessageBody (base head owner proj : String) : String :=
  renderJson (Json.arr [create_invocation_payload base head owner proj])

/-- Lines 83-107 from the service invocation on: the service call happens,
its reply is parsed, the files member is taken, the prompt is composed and the
chat model invoked. -/
def afterService (env : PrEnv) (system_prompt_text : String) (ci : Option String)
    (evs : List Event) (invocation_str : String) : List Event × Except PyErr ChatMessage :=
  match Json.parse env.service_reply with
  | none => (evs ++ [Event.serviceCall invocation_str], Except.error PyErr.jsonDecodeError)
  | some reply =>
    match Json.lookup reply "files" with
    | none => (evs ++ [Event.serviceCall invocation_str], Except.error PyErr.keyError)
    | some files =>
      let msgs := compose_prompt_messages files system_prompt_text ci
      (evs ++ [Event.serviceCall invocation_str, Event.chatCall msgs], Except.ok env.llm_reply)

/-- Lines 75-82 (after the prompt resolution): the repository identifier is
split and indexed — `IndexError` here precedes the service call. -/
def afterPrompt (env : PrEnv) (github_repo base head : String) (ci : Option String)
    (evs : List Event) : Except Unit String → List Event × Except PyErr ChatMessage
  | Except.error _ => (evs, Except.error PyErr.fileNotFound)
  | Except.ok system_prompt_text =>
    match repoOwnerProject github_repo with
    | none => (evs, Except.error PyErr.indexError)
    | some (owner, proj) =>
      afterService env system_prompt_text ci evs (invocationMessageBody base head owner proj)

/-- Lines 64-68: the OpenAPI document is loaded and `json.loads`-parsed, then
the system prompt is resolved. -/
def afterSpecLoad (env : PrEnv) (github_repo base head : String) (ci : Option String) :
    List Event × Except Unit String → List Event × Except PyErr ChatMessage
  | (evs1, Except.error _) => (evs1, Except.error PyErr.fileNotFound)
  | (evs1, Except.ok spec_text) =>
    match Json.parse spec_text with
    | none => (evs1, Except.error PyErr.jsonDecodeError)
    | some _ =>
      match resolve_system_prompt env with
      | (evs2, promptRes) => afterPrompt env github_repo base head ci (evs1 ++ evs2) promptRes

/-- `generate_pr_text(github_repo, base_branch, pr_branch, model_name,
custom_instruction)`: the events of the run and its outcome (the model name
does not influence the modelled control flow). -/
def generate_pr_text (env : PrEnv) (github_repo base_branch pr_branch : String)
    (custom_instruction : Option String) : List Event × Except PyErr ChatMessage :=
  afterSpecLoad env github_repo base_branch pr_branch custom_instruction
    (load_file_from env.fs compare_spec_locations)

/-! ## Concrete environments used by witnesses and counterexamples -/

/-- A world in which every candidate location fails. -/
def fs7fail : FS :=
  ⟨fun _ => FetchResult.exn, fun _ => false, fun _ => ReadResult.exn⟩

/-- A world in which URLs fail but the path candidate resolves. -/
def fs7second : FS :=
  ⟨fun _ => FetchResult.exn, fun p => decide (p = "b.txt"),
   fun _ => ReadResult.content "hello"⟩

/-- A world with no local artifact files where the fallback URLs answer 200
with a minimal JSON document. -/
def fsRemoteSpec : FS :=
  ⟨fun _ => FetchResult.ok 200 "\x7b\x7d", fun _ => false, fun _ => ReadResult.exn⟩

/-- Environment whose OpenAPI document only resolves over the network and
whose system prompt comes from the override variable. -/
def prEnvRemoteSpec : PrEnv :=
  ⟨fsRemoteSpec, some "p", "", ChatMessage.from_assistant ""⟩

/-- A world with every local artifact file present. -/
def fsLocalFiles : FS :=
  ⟨fun _ => FetchResult.exn, fun _ => true,
   fun p => if p = "github_compare_spec.json" then ReadResult.content "\x7b\x7d"
            else ReadResult.content "SYS"⟩

/-- Environment resolving everything locally, with a stubbed two-file
comparison reply. -/
def prEnvLocalFiles : PrEnv :=
  ⟨fsLocalFiles, some "PROMPT", "\x7b\"files\": [\"f1\", \"f2\"]\x7d",
   ChatMessage.from_assistant "PR text"⟩

/-! ## Theorems -/

/-- C1, the claim as stated is false: the arguments string of the descriptor
for repository acme/widgets, base main, head feature-x does not decode to the
flat object with the three comparison parameters at top level. -/
theorem C1_counterexample :
    Json.parse (argumentsString "main" "feature-x" "acme" "widgets") ≠
      some (Json.obj
        [("basehead", Json.str "main...feature-x"),
         ("owner", Json.str "acme"),
         ("repo", Json.str "widgets")]) := by
  intro h
  rw [show Json.parse (argumentsString "main" "feature-x" "acme" "widgets") =
        some (Json.obj
          [("parameters", Json.obj
            [("basehead", Json.str "main...feature-x"),
             ("owner", Json.str "acme"),
             ("repo", Json.str "widgets")])]) from rfl] at h
  simp only [Option.some.injEq] at h
  have hk := congrArg topKeys h
  simp only [topKeys] at hk
  exact absurd hk (by decide)

/-- C1 amended: for repository acme/widgets, base main and head feature-x the
arguments string decodes to the object that nests the three comparison
parameters under the single key parameters, and the descriptor's operation
name is the fixed branch-comparison operation compare_branches. -/
theorem C1_amended :
    Json.parse (argumentsString "main" "feature-x" "acme" "widgets") =
      some (Json.obj
        [("parameters", Json.obj
          [("basehead", Json.str "main...feature-x"),
           ("owner", Json.str "acme"),
           ("repo", Json.str "widgets")])]) ∧
    ((create_invocation_payload "main" "feature-x" "acme" "widgets").lookup
        "function").bind (fun f => f.lookup "name") =
      some (Json.str "compare_branches") := by
  exact ⟨rfl, rfl⟩

/-- C2: the code violates the spec's invariant — a double quote in the base
ref is interpolated unescaped into the f-string, so the serialized argument
object is not valid JSON (json.loads rejects it). -/
theorem C2_invalid_json :
    Json.parse (argumentsString "x\"y" "h" "o" "r") = none := rfl

/-- C4, the claim as stated is false: with exactly one positional argument
(fewer than two), the three-target unpacking of `sys.argv[1:4]` raises
`ValueError` instead of falling back to the environment variables. -/
theorem C4_counterexample :
    resolve_repo_refs ["onlyrepo"] = ArgResolution.unpackError ∧
    ArgResolution.unpackError ≠ ArgResolution.fromEnv := ⟨rfl, by decide⟩

/-- C4 amended: with zero positional arguments all three values come from the
environment; with one or two the unpacking raises; with three or more the
first three are taken as repository, base ref and head ref (extras ignored). -/
theorem C4_amended :
    resolve_repo_refs [] = ArgResolution.fromEnv ∧
    (∀ a, resolve_repo_refs [a] = ArgResolution.unpackError) ∧
    (∀ a b, resolve_repo_refs [a, b] = ArgResolution.unpackError) ∧
    (∀ a b c rest, resolve_repo_refs (a :: b :: c :: rest) =
      ArgResolution.fromCli a b c) := by
  refine ⟨rfl, fun a => rfl, fun a b => rfl, fun a b c rest => ?_⟩
  show (if (a :: b :: c :: rest).length + 1 < 2 then ArgResolution.fromEnv
        else _) = _
  rw [if_neg (by simp)]

/-- C5: the Prompt Composer hands the chat model exactly the system message
followed by the serialized changed-files user message when no non-empty
custom instruction is supplied, and exactly those two followed by the
custom-instruction user message when one is supplied. -/
theorem C5_composer (files : Json) (system_prompt_text : String) :
    compose_prompt_messages files system_prompt_text none =
      [ChatMessage.from_system system_prompt_text,
       ChatMessage.from_user (renderJson files)] ∧
    compose_prompt_messages files system_prompt_text (some "") =
      [ChatMessage.from_system system_prompt_text,
       ChatMessage.from_user (renderJson files)] ∧
    (∀ s : String, s ≠ "" →
      compose_prompt_messages files system_prompt_text (some s) =
        [ChatMessage.from_system system_prompt_text,
         ChatMessage.from_user (renderJson files),
         ChatMessage.from_user s]) := by
  refine ⟨rfl, rfl, fun s hs => ?_⟩
  show (if s = "" then _ else _) = _
  rw [if_neg hs]
  rfl

/-- C5 at a concrete stubbed comparison response with a two-entry files list
and a fixed system prompt: two messages without a custom instruction, three
with one, in order. -/
theorem C5_witness :
    compose_prompt_messages (Json.arr [Json.str "f1", Json.str "f2"]) "SYS" none =
      [ChatMessage.from_system "SYS",
       ChatMessage.from_user (renderJson (Json.arr [Json.str "f1", Json.str "f2"]))] ∧
    compose_prompt_messages (Json.arr [Json.str "f1", Json.str "f2"]) "SYS"
        (some "be brief") =
      [ChatMessage.from_system "SYS",
       ChatMessage.from_user (renderJson (Json.arr [Json.str "f1", Json.str "f2"])),
       ChatMessage.from_user "be brief"] :=
  ⟨(C5_composer _ "SYS").1, (C5_composer _ "SYS").2.2 "be brief" (by decide)⟩

theorem hexChar_hex : ∀ n, n < 16 → isHexDigitChar (hexChar n) = true := by decide

theorem wordHex_length (w : Nat) : (wordHex w).length = 8 := rfl

theorem wordHex_mem_hex (w : Nat) : ∀ c ∈ wordHex w, isHexDigitChar c = true := by
  intro c hc
  simp only [wordHex, List.mem_cons, List.not_mem_nil, or_false] at hc
  rcases hc with h | h | h | h | h | h | h | h <;> subst h <;>
    exact hexChar_hex _ (Nat.mod_lt _ (by norm_num))

/-- Any hex digest of the model has 64 characters, with no evaluation of the
compression function. -/
theorem sha256hexdigest_length (s : String) : (sha256hexdigest s).length = 64 := by
  show (List.flatten ((sha256state (s.data.map Char.toNat)).toList.map wordHex)).length = 64
  rcases sha256state (s.data.map Char.toNat) with ⟨a, b, c, d, e, f, g, h⟩
  simp [Sha8.toList, wordHex_length]

theorem sha256hexdigest_hex (s : String) :
    ∀ c ∈ (sha256hexdigest s).data, isHexDigitChar c = true := by
  intro c hc
  have hc2 : c ∈ List.flatten ((sha256state (s.data.map Char.toNat)).toList.map wordHex) := hc
  rcases List.mem_flatten.mp hc2 with ⟨l, hl, hcl⟩
  rcases List.mem_map.mp hl with ⟨w, _, rfl⟩
  exact wordHex_mem_hex w c hcl

/-- C8, the claim as stated is false: with the output-file variable set to the
empty string (set, but falsy in Python), nothing is written at all. -/
theorem C8_counterexample :
    write_to_github_output (some "") "x" "a\nb" = [] ∧
    write_to_github_output (some "") "x" "a\nb" ≠
      ["x" ++ "<<" ++ github_output_delimiter ++ "\n", "a\nb" ++ "\n",
       github_output_delimiter ++ "\n"] := by
  refine ⟨rfl, ?_⟩
  rw [show write_to_github_output (some "") "x" "a\nb" = [] from rfl]
  exact fun h => List.noConfusion h

/-- C8 amended: whenever the output-file variable is set to a non-empty path,
the write appends exactly the block name, two angle brackets, delimiter, line
feed, value, line feed, delimiter, line feed — the same delimiter, a
64-character hexadecimal digest of the fixed seed, opening and closing it. -/
theorem C8_amended (output_name output_value p : String) (hp : p ≠ "") :
    write_to_github_output (some p) output_name output_value =
      [output_name ++ "<<" ++ github_output_delimiter ++ "\n",
       output_value ++ "\n",
       github_output_delimiter ++ "\n"] ∧
    String.join (write_to_github_output (some p) output_name output_value) =
      output_name ++ "<<" ++ github_output_delimiter ++ "\n" ++ output_value ++
        "\n" ++ github_output_delimiter ++ "\n" ∧
    github_output_delimiter.length = 64 ∧
    (∀ c ∈ github_output_delimiter.data, isHexDigitChar c = true) := by
  have hw : write_to_github_output (some p) output_name output_value =
      [output_name ++ "<<" ++ github_output_delimiter ++ "\n",
       output_value ++ "\n",
       github_output_delimiter ++ "\n"] := by
    show (if p = "" then [] else _) = _
    rw [if_neg hp]
  refine ⟨hw, ?_, sha256hexdigest_length _, sha256hexdigest_hex _⟩
  rw [hw]
  show "" ++ (output_name ++ "<<" ++ github_output_delimiter ++ "\n") ++
      (output_value ++ "\n") ++ (github_output_delimiter ++ "\n") = _
  apply String.ext
  simp [String.data_append]

/-- C8 amended, applied at the name x, a value with an embedded line feed and
a concrete output path. -/
theorem C8_witness :
    write_to_github_output (some "out.txt") "x" "line1\nline2" =
      ["x" ++ "<<" ++ github_output_delimiter ++ "\n",
       "line1\nline2" ++ "\n",
       github_output_delimiter ++ "\n"] ∧
    github_output_delimiter.length = 64 := by
  have h := C8_amended "x" "line1\nline2" "out.txt" (by decide)
  exact ⟨h.1, h.2.2.1⟩

/-- C9: the clean skip exit (exit 0, before any pipeline work) is taken if and
only if the trigger-text variable holds a string whose extracted custom
instruction is non-empty and contains the whole-word skip token; a skip token
elsewhere in the trigger text (outside the extracted remainder) never causes
the exit, as the concrete trigger with skip before the mention shows. -/
theorem C9_skip_exit :
    (∀ (bot : String) (msg : Option String),
      skip_early_exit bot msg = true ↔
        ∃ s, msg = some s ∧ extract_custom_instruction bot s ≠ "" ∧
          contains_skip_instruction (extract_custom_instruction bot s) = true) ∧
    skip_early_exit "bot" (some "skip the next @bot be nice") = false ∧
    contains_skip_instruction "skip the next @bot be nice" = true := by
  refine ⟨fun bot msg => ?_, by decide, by decide⟩
  cases msg with
  | none => simp [skip_early_exit]
  | some s =>
    by_cases hs : s = ""
    · subst hs
      rw [show skip_early_exit bot (some "") = false from rfl]
      constructor
      · intro h; exact absurd h (by decide)
      · rintro ⟨t, ht, hne, _⟩
        rcases Option.some.inj ht with rfl
        exact absurd rfl hne
    · simp only [skip_early_exit, if_neg hs]
      by_cases hce : extract_custom_instruction bot s = ""
      · rw [if_pos hce]
        constructor
        · intro h; exact absurd h (by decide)
        · rintro ⟨t, ht, hne, _⟩
          rcases Option.some.inj ht with rfl
          exact absurd hce hne
      · rw [if_neg hce]
        constructor
        · intro h; exact ⟨s, rfl, hce, h⟩
        · rintro ⟨t, ht, _, hsk⟩
          rcases Option.some.inj ht with rfl
          exact hsk

theorem attempt_snd (fs : FS) (loc : String) :
    (attempt fs loc).2 =
      (if isUrl loc then
        (match fs.http loc with
         | FetchResult.ok status body => if status = 200 then some body else none
         | FetchResult.exn => none)
       else if fs.pathExists loc then
        (match fs.readFile loc with
         | ReadResult.content s => some s
         | ReadResult.exn => none)
       else none) := by
  unfold attempt
  split_ifs <;> rfl

theorem attempt_fst (fs : FS) (loc : String) :
    (attempt fs loc).1 = if isUrl loc then [Event.httpGet loc] else [] := by
  unfold attempt
  split_ifs <;> rfl

theorem attempt_none_of_fails (fs : FS) (loc : String) (hf : entryFails fs loc) :
    (attempt fs loc).2 = none := by
  rw [attempt_snd]
  unfold entryFails at hf
  by_cases hu : isUrl loc = true
  · rw [if_pos hu] at hf ⊢
    cases hh : fs.http loc with
    | ok status body =>
      rw [hh] at hf
      rcases hf with h | h
      · exact FetchResult.noConfusion h
      · show (if status = 200 then some body else none) = none
        by_cases h200 : status = 200
        · subst h200; exact absurd rfl (h body)
        · rw [if_neg h200]
    | exn => rfl
  · rw [if_neg hu] at hf ⊢
    by_cases hex : fs.pathExists loc = true
    · rw [if_pos hex]
      rcases hf with h | h
      · rw [hex] at h; exact absurd h (by decide)
      · rw [h]
    · rw [if_neg hex]

theorem attempt_some_of_yields (fs : FS) (loc : String) (c : String)
    (hy : entryYields fs loc c) : (attempt fs loc).2 = some c := by
  rw [attempt_snd]
  unfold entryYields at hy
  by_cases hu : isUrl loc = true
  · rw [if_pos hu] at hy ⊢
    rw [hy]
    rfl
  · rw [if_neg hu] at hy ⊢
    rw [if_pos hy.1, hy.2]

/-- C7: when every candidate fails the Resource Loader raises its NotFound
error, and when the first candidate fails and the second succeeds the loader
returns the second's content unchanged. -/
theorem C7_loader :
    (∀ (fs : FS) (locations : List String),
      (∀ loc ∈ locations, entryFails fs loc) →
      (load_file_from fs locations).2 = Except.error ()) ∧
    (∀ (fs : FS) (l1 l2 : String) (rest : List String) (c : String),
      entryFails fs l1 → entryYields fs l2 c →
      (load_file_from fs (l1 :: l2 :: rest)).2 = Except.ok c) := by
  have hfail : ∀ (fs : FS) (locations : List String),
      (∀ loc ∈ locations, entryFails fs loc) →
      (load_file_from fs locations).2 = Except.error () := by
    intro fs locations
    induction locations with
    | nil => intro _; rfl
    | cons loc rest ih =>
      intro hall
      have h1 : (attempt fs loc).2 = none :=
        attempt_none_of_fails _ _ (hall loc (List.mem_cons_self _ _))
      simp only [load_file_from, h1]
      exact ih (fun l hl => hall l (List.mem_cons_of_mem _ hl))
  refine ⟨hfail, fun fs l1 l2 rest c h1 h2 => ?_⟩
  have ha1 : (attempt fs l1).2 = none := attempt_none_of_fails _ _ h1
  have ha2 : (attempt fs l2).2 = some c := attempt_some_of_yields _ _ _ h2
  simp only [load_file_from, ha1, ha2]

/-- C7 applied: in a world where both candidates fail the loader errors, and
in a world where the URL fails but the local path resolves the loader returns
that path's content. -/
theorem C7_witness :
    (load_file_from fs7fail ["http://a", "b.txt"]).2 = Except.error () ∧
    (load_file_from fs7second ["http://a", "b.txt"]).2 = Except.ok "hello" := by
  refine ⟨C7_loader.1 fs7fail _ ?_, C7_loader.2 fs7second "http://a" "b.txt" [] "hello" ?_ ?_⟩
  · intro loc h
    rcases List.mem_cons.mp h with rfl | h2
    · exact Or.inl rfl
    · rcases List.mem_cons.mp h2 with rfl | h3
      · exact Or.inl rfl
      · exact absurd h3 (List.not_mem_nil _)
  · exact Or.inl rfl
  · exact ⟨rfl, rfl⟩

theorem mentionAtB_succ (pat : List Char) (c : Char) (rest : List Char) (i : Nat) :
    mentionAtB pat (c :: rest) (i + 1) = mentionAtB pat rest i := by
  unfold mentionAtB
  rw [List.drop_succ_cons, show i + 1 + pat.length = (i + pat.length) + 1 from by omega,
    List.drop_succ_cons]

theorem matchTail_eq (pat : List Char) : ∀ s : List Char,
    matchTail pat s =
      if mentionAtB pat s 0 = true then some (captureFrom (s.drop pat.length))
      else none := by
  induction pat with
  | nil =>
    intro s
    cases s with
    | nil => rfl
    | cons c rest =>
      show (if pySpace c = true then some (captureFrom (c :: rest)) else none) = _
      unfold mentionAtB headIsSpace
      simp only [List.drop_zero, List.length_nil, List.take_zero, decide_True,
        Bool.true_and, Nat.zero_add]
  | cons p ps ih =>
    intro s
    cases s with
    | nil =>
      show none = _
      unfold mentionAtB
      simp
    | cons c rest =>
      show (if c = p then matchTail ps rest else none) = _
      by_cases hcp : c = p
      · subst hcp
        rw [if_pos rfl, ih rest]
        have hcond : mentionAtB (c :: ps) (c :: rest) 0 = mentionAtB ps rest 0 := by
          unfold mentionAtB
          simp only [List.drop_zero, List.length_cons, List.take_succ_cons,
            Nat.zero_add, List.drop_succ_cons, List.cons.injEq, true_and]
        rw [hcond]
        rw [show (c :: rest).drop (c :: ps).length = rest.drop ps.length from by
          simp [List.length_cons]]
      · rw [if_neg hcp]
        have hfalse : mentionAtB (p :: ps) (c :: rest) 0 = false := by
          unfold mentionAtB
          simp [List.take_succ_cons, List.cons.injEq, hcp]
        rw [hfalse]
        simp

theorem find?_of_map {α β : Type} (f : β → α) (p : α → Bool) :
    ∀ l : List β, (l.map f).find? p = (l.find? (fun b => p (f b))).map f := by
  intro l
  induction l with
  | nil => rfl
  | cons a l ih =>
    cases h : p (f a) with
    | true =>
      rw [List.map_cons, List.find?_cons, List.find?_cons]
      show (match p (f a) with
            | true => some (f a)
            | false => List.find? p (List.map f l)) = _
      rw [h]
      rfl
    | false =>
      rw [List.map_cons, List.find?_cons, List.find?_cons]
      show (match p (f a) with
            | true => some (f a)
            | false => List.find? p (List.map f l)) =
        Option.map f (match p (f a) with
            | true => some a
            | false => List.find? (fun b => p (f b)) l)
      rw [h]
      exact ih

theorem searchMention_eq (pat : List Char) : ∀ s : List Char,
    searchMention pat s =
      (firstMention pat s).map (fun i => captureFrom (s.drop (i + pat.length))) := by
  intro s
  induction s with
  | nil => rfl
  | cons c rest ih =>
    show (match matchTail pat (c :: rest) with
          | some g => some g
          | none => searchMention pat rest) = _
    rw [matchTail_eq]
    rw [show firstMention pat (c :: rest) =
          (List.range (rest.length + 1)).find? (mentionAtB pat (c :: rest)) from rfl]
    rw [List.range_succ_eq_map]
    cases h0 : mentionAtB pat (c :: rest) 0 with
    | true =>
      rw [List.find?_cons_of_pos _ h0, if_pos rfl]
      simp only [Option.map_some', Nat.zero_add]
    | false =>
      rw [List.find?_cons_of_neg _ (by simp [h0]), if_neg (by simp [h0])]
      rw [find?_of_map]
      have hpt : (fun b => mentionAtB pat (c :: rest) (Nat.succ b)) = mentionAtB pat rest := by
        funext i
        exact mentionAtB_succ pat c rest i
      rw [hpt, ih]
      show _ = ((firstMention pat rest).map Nat.succ).map
          (fun i => captureFrom ((c :: rest).drop (i + pat.length)))
      cases hf : firstMention pat rest with
      | none => rfl
      | some i =>
        simp only [Option.map_some']
        rw [show Nat.succ i + pat.length = (i + pat.length) + 1 from by omega,
          List.drop_succ_cons]

/-- C3, the claim as stated is false: the capture stops at the first line
feed (Python's dot does not match a newline), not at the end of the string. -/
theorem C3_counterexample :
    extract_custom_instruction "bot" "@bot hi\nthere" = "hi" ∧
    extractToEndOfString "bot" "@bot hi\nthere" = "hi\nthere" ∧
    extract_custom_instruction "bot" "@bot hi\nthere" ≠
      extractToEndOfString "bot" "@bot hi\nthere" :=
  ⟨rfl, rfl, by decide⟩

/-- C3 amended: for every bot name and trigger text, the extractor returns,
at the first occurrence of the mention followed by whitespace, the remainder
after the maximal whitespace run up to (excluding) the first line feed or the
end of the string, and the empty string when there is no such occurrence; the
two concrete examples of the claim hold. -/
theorem C3_amended :
    (∀ bot_name user_instruction : String,
      extract_custom_instruction bot_name user_instruction =
        extractSpec bot_name user_instruction) ∧
    extract_custom_instruction "bot" "hello @bot please be concise" =
      "please be concise" ∧
    extract_custom_instruction "bot" "no mention here" = "" := by
  refine ⟨fun bot_name user_instruction => ?_, rfl, rfl⟩
  unfold extract_custom_instruction extractSpec
  rw [searchMention_eq]
  cases h : firstMention ('@' :: bot_name.data) user_instruction.data <;> simp [h]

theorem isSkipWord_shape (w : List Char) :
    IsSkipWord w ↔ ∃ a b c d : Char, w = [a, b, c, d] ∧ a.toLower = 's' ∧
      b.toLower = 'k' ∧ c.toLower = 'i' ∧ d.toLower = 'p' := by
  rcases w with _ | ⟨a, _ | ⟨b, _ | ⟨c, _ | ⟨d, _ | ⟨e, t⟩⟩⟩⟩⟩ <;>
    simp [IsSkipWord]
  constructor
  · rintro ⟨h1, h2, h3, h4⟩
    exact ⟨a, b, c, d, ⟨rfl, rfl, rfl, rfl⟩, h1, h2, h3, h4⟩
  · rintro ⟨a2, b2, c2, d2, ⟨rfl, rfl, rfl, rfl⟩, h1, h2, h3, h4⟩
    exact ⟨h1, h2, h3, h4⟩

theorem skipTokenAt_of (a b c d : Char) (rest : List Char)
    (ha : a.toLower = 's') (hb : b.toLower = 'k') (hc : c.toLower = 'i')
    (hd : d.toLower = 'p') : skipTokenAt (a :: b :: c :: d :: rest) = some rest := by
  simp [skipTokenAt, ha, hb, hc, hd]

theorem skipTokenAt_shape (s : List Char) (after : List Char)
    (h : skipTokenAt s = some after) :
    ∃ a b c d : Char, s = a :: b :: c :: d :: after ∧ a.toLower = 's' ∧
      b.toLower = 'k' ∧ c.toLower = 'i' ∧ d.toLower = 'p' := by
  rcases s with _ | ⟨a, _ | ⟨b, _ | ⟨c, _ | ⟨d, t⟩⟩⟩⟩ <;>
    simp only [skipTokenAt] at h
  · exact absurd h (by simp)
  · exact absurd h (by simp)
  · exact absurd h (by simp)
  · exact absurd h (by simp)
  · by_cases hall : a.toLower = 's' ∧ b.toLower = 'k' ∧ c.toLower = 'i' ∧ d.toLower = 'p'
    · obtain ⟨h1, h2, h3, h4⟩ := hall
      rw [if_pos (by simp [h1, h2, h3, h4])] at h
      exact ⟨a, b, c, d, by rw [Option.some.inj h], h1, h2, h3, h4⟩
    · rw [if_neg (by simpa [Bool.and_eq_true, decide_eq_true_eq] using hall)] at h
      exact absurd h (by simp)

theorem matchSkipHere_iff (prev : Option Char) (s : List Char) :
    matchSkipHere prev s = true ↔
      ∃ w r, s = w ++ r ∧ IsSkipWord w ∧ boundaryBefore prev = true ∧
        boundaryAfter r = true := by
  unfold matchSkipHere
  cases htok : skipTokenAt s with
  | none =>
    simp only [Bool.false_eq_true, false_iff]
    rintro ⟨w, r, rfl, hw, hb, ha⟩
    obtain ⟨a, b, c, d, rfl, h1, h2, h3, h4⟩ := (isSkipWord_shape w).mp hw
    rw [show ([a, b, c, d] ++ r) = a :: b :: c :: d :: r from rfl] at htok
    rw [skipTokenAt_of a b c d r h1 h2 h3 h4] at htok
    exact Option.noConfusion htok
  | some after =>
    obtain ⟨a, b, c, d, rfl, h1, h2, h3, h4⟩ := skipTokenAt_shape s after htok
    constructor
    · intro hb
      have hb2 : boundaryBefore prev = true ∧ boundaryAfter after = true := by
        simpa using hb
      refine ⟨[a, b, c, d], after, rfl, ?_, hb2.1, hb2.2⟩
      exact (isSkipWord_shape _).mpr ⟨a, b, c, d, rfl, h1, h2, h3, h4⟩
    · rintro ⟨w, r, hseq, hw, hb, ha⟩
      obtain ⟨a2, b2, c2, d2, rfl, h5, h6, h7, h8⟩ := (isSkipWord_shape w).mp hw
      rw [show ([a2, b2, c2, d2] ++ r) = a2 :: b2 :: c2 :: d2 :: r from rfl] at hseq
      simp only [List.cons.injEq] at hseq
      obtain ⟨rfl, rfl, rfl, rfl, rfl⟩ := hseq
      simp [hb, ha]

theorem skipSearch_iff : ∀ (s : List Char) (prev : Option Char),
    skipSearch prev s = true ↔
      ∃ l w r, s = l ++ w ++ r ∧ IsSkipWord w ∧
        boundaryBefore (lastOr prev l) = true ∧ boundaryAfter r = true := by
  intro s
  induction s with
  | nil =>
    intro prev
    constructor
    · intro h; exact Bool.noConfusion h
    · rintro ⟨l, w, r, hseq, hw, -, -⟩
      obtain ⟨a, b, c, d, rfl, -, -, -, -⟩ := (isSkipWord_shape w).mp hw
      rcases l with _ | ⟨x, l2⟩
      · exact List.noConfusion hseq
      · exact List.noConfusion hseq
  | cons c rest ih =>
    intro prev
    show (matchSkipHere prev (c :: rest) || skipSearch (some c) rest) = true ↔ _
    rw [Bool.or_eq_true, matchSkipHere_iff, ih (some c)]
    constructor
    · rintro (⟨w, r, hseq, hw, hb, ha⟩ | ⟨l, w, r, hseq, hw, hb, ha⟩)
      · exact ⟨[], w, r, hseq, hw, hb, ha⟩
      · exact ⟨c :: l, w, r, by rw [List.cons_append, List.cons_append, ← hseq],
          hw, hb, ha⟩
    · rintro ⟨l, w, r, hseq, hw, hb, ha⟩
      cases l with
      | nil => exact Or.inl ⟨w, r, hseq, hw, hb, ha⟩
      | cons c2 l2 =>
        rw [List.cons_append, List.cons_append] at hseq
        simp only [List.cons.injEq] at hseq
        obtain ⟨rfl, hrest⟩ := hseq
        exact Or.inr ⟨l2, w, r, hrest, hw, hb, ha⟩

/-- C6: containsSkipInstruction is true exactly when the text splits as a
left part, a four-letter word equal to skip up to case, and a right part,
with a word boundary on each side (start of string or non-word character
before, end of string or non-word character after); the two concrete examples
of the claim hold. -/
theorem C6_contains_skip :
    (∀ text : String, contains_skip_instruction text = true ↔ SkipSpec text) ∧
    contains_skip_instruction "please skip this" = true ∧
    contains_skip_instruction "skipper duty" = false := by
  refine ⟨fun text => ?_, by decide, by decide⟩
  exact skipSearch_iff text.data none

theorem attempt_events (fs : FS) (loc : String) (e : Event)
    (h : e ∈ (attempt fs loc).1) : ∃ u, e = Event.httpGet u := by
  rw [attempt_fst] at h
  by_cases hu : isUrl loc = true
  · rw [if_pos hu] at h
    rcases List.mem_singleton.mp h with rfl
    exact ⟨loc, rfl⟩
  · rw [if_neg hu] at h
    exact absurd h (List.not_mem_nil _)

theorem load_events_are_gets (fs : FS) : ∀ (locs : List String) (e : Event),
    e ∈ (load_file_from fs locs).1 → ∃ u, e = Event.httpGet u := by
  intro locs
  induction locs with
  | nil => intro e h; exact absurd h (List.not_mem_nil _)
  | cons loc rest ih =>
    intro e h
    cases ha : (attempt fs loc).2 with
    | some s =>
      simp only [load_file_from, ha] at h
      exact attempt_events fs loc e h
    | none =>
      simp only [load_file_from, ha] at h
      rcases List.mem_append.mp h with h1 | h2
      · exact attempt_events fs loc e h1
      · exact ih e h2

theorem resolve_prompt_events (env : PrEnv) (e : Event)
    (h : e ∈ (resolve_system_prompt env).1) : ∃ u, e = Event.httpGet u := by
  unfold resolve_system_prompt at h
  cases hm : env.system_message_env with
  | none =>
    rw [hm] at h
    exact load_events_are_gets env.fs _ e h
  | some s =>
    rw [hm] at h
    have h2 : e ∈ (if s = "" then load_file_from env.fs system_prompt_locations
        else ([], Except.ok s)).1 := h
    by_cases hs : s = ""
    · rw [if_pos hs] at h2
      exact load_events_are_gets env.fs _ e h2
    · rw [if_neg hs] at h2
      exact absurd h2 (List.not_mem_nil _)

theorem splitSlash_shape (s : List Char) : ∃ seg segs, splitSlash s = seg :: segs := by
  induction s with
  | nil => exact ⟨[], [], rfl⟩
  | cons c rest ih =>
    obtain ⟨seg, segs, hs⟩ := ih
    by_cases hc : c = '/'
    · exact ⟨[], seg :: segs, by simp only [splitSlash, hs, if_pos hc]⟩
    · exact ⟨c :: seg, segs, by simp only [splitSlash, hs, if_neg hc]⟩

theorem splitSlash_seg_no_slash (s : List Char) :
    ∀ seg ∈ splitSlash s, '/' ∉ seg := by
  induction s with
  | nil =>
    intro seg h
    rcases List.mem_singleton.mp h with rfl
    exact List.not_mem_nil _
  | cons c rest ih =>
    intro seg h
    obtain ⟨seg0, segs0, hs⟩ := splitSlash_shape rest
    simp only [splitSlash, hs] at h
    by_cases hc : c = '/'
    · rw [if_pos hc] at h
      rcases List.mem_cons.mp h with rfl | h2
      · exact List.not_mem_nil _
      · exact ih seg (hs ▸ h2)
    · rw [if_neg hc] at h
      rcases List.mem_cons.mp h with rfl | h2
      · intro hmem
        rcases List.mem_cons.mp hmem with h3 | h3
        · exact hc h3.symm
        · exact ih seg0 (by rw [hs]; exact List.mem_cons_self _ _) h3
      · exact ih seg (by rw [hs]; exact List.mem_cons_of_mem _ h2)

theorem splitSlash_of_no_slash (s : List Char) (h : '/' ∉ s) :
    splitSlash s = [s] := by
  induction s with
  | nil => rfl
  | cons c rest ih =>
    have hc : c ≠ '/' := fun hc => h (hc ▸ List.mem_cons_self _ _)
    have hr : '/' ∉ rest := fun hm => h (List.mem_cons_of_mem _ hm)
    simp only [splitSlash, ih hr]
    rw [if_neg hc]

theorem splitSlash_append_slash (a t : List Char) (h : '/' ∉ a) :
    splitSlash (a ++ '/' :: t) = a :: splitSlash t := by
  induction a with
  | nil =>
    show (match splitSlash t with
          | seg :: segs =>
            if ('/' : Char) = '/' then [] :: seg :: segs else ('/' :: seg) :: segs
          | [] => [[]]) = [] :: splitSlash t
    obtain ⟨seg, segs, hs⟩ := splitSlash_shape t
    rw [hs]
    show (if ('/' : Char) = '/' then [] :: seg :: segs else ('/' :: seg) :: segs) =
      [] :: seg :: segs
    rw [if_pos rfl]
  | cons c a2 ih =>
    have hc : c ≠ '/' := fun hc2 => h (hc2 ▸ List.mem_cons_self _ _)
    have ha2 : '/' ∉ a2 := fun hm => h (List.mem_cons_of_mem _ hm)
    rw [List.cons_append]
    show (match splitSlash (a2 ++ '/' :: t) with
          | seg :: segs => if c = '/' then [] :: seg :: segs else (c :: seg) :: segs
          | [] => [[]]) = (c :: a2) :: splitSlash t
    rw [ih ha2]
    show (if c = '/' then [] :: a2 :: splitSlash t else (c :: a2) :: splitSlash t) =
      (c :: a2) :: splitSlash t
    rw [if_neg hc]

theorem repoOwnerProject_none (repo : String) (h : '/' ∉ repo.data) :
    repoOwnerProject repo = none := by
  unfold repoOwnerProject
  rw [splitSlash_of_no_slash _ h]

theorem afterPrompt_congr (env : PrEnv) (r1 r2 base head : String)
    (ci : Option String) (evs : List Event)
    (h : repoOwnerProject r1 = repoOwnerProject r2) :
    ∀ pr, afterPrompt env r1 base head ci evs pr =
      afterPrompt env r2 base head ci evs pr := by
  intro pr
  cases pr with
  | error e => rfl
  | ok spt => simp only [afterPrompt, h]

theorem generate_congr (env : PrEnv) (r1 r2 base head : String)
    (ci : Option String) (h : repoOwnerProject r1 = repoOwnerProject r2) :
    generate_pr_text env r1 base head ci = generate_pr_text env r2 base head ci := by
  unfold generate_pr_text
  generalize load_file_from env.fs compare_spec_locations = x
  obtain ⟨evs, res⟩ := x
  cases res with
  | error e => rfl
  | ok spec_text =>
    simp only [afterSpecLoad]
    cases Json.parse spec_text with
    | none => rfl
    | some j => exact afterPrompt_congr env r1 r2 base head ci _ h _

/-- C10, the claim as stated is false: in a world without local artifact
files the OpenAPI document is fetched over the network, so a repository
identifier without a slash reaches its IndexError only after an HTTP GET has
been issued. -/
theorem C10_counterexample :
    generate_pr_text prEnvRemoteSpec "norepo" "main" "feat" none =
      ([Event.httpGet "https://bit.ly/github_compare"],
       Except.error PyErr.indexError) ∧
    Event.httpGet "https://bit.ly/github_compare" ∈
      (generate_pr_text prEnvRemoteSpec "norepo" "main" "feat" none).1 := by
  refine ⟨rfl, ?_⟩
  rw [show (generate_pr_text prEnvRemoteSpec "norepo" "main" "feat" none).1 =
    [Event.httpGet "https://bit.ly/github_compare"] from rfl]
  exact List.mem_singleton.mpr rfl

/-- C10 amended: only the first two slash-separated segments of the
repository identifier are used — segment 0 as owner, segment 1 as repository
name, further segments ignored (the run is unchanged when they are dropped);
and for every repository string without a slash, whenever both artifacts
resolve, generate_pr_text fails with an IndexError before issuing the
branch-comparison service call or the chat call (every event issued before
the failure is an artifact HTTP GET). -/
theorem C10_amended :
    (∀ (env : PrEnv) (repo base head : String) (ci : Option String)
       (a b : List Char) (rest : List (List Char)),
      splitSlash repo.data = a :: b :: rest →
      repoOwnerProject repo = some (String.mk a, String.mk b) ∧
      generate_pr_text env repo base head ci =
        generate_pr_text env (String.mk (a ++ '/' :: b)) base head ci) ∧
    (∀ (env : PrEnv) (repo base head : String) (ci : Option String)
       (evs1 evs2 : List Event) (spec_text prompt_text : String) (spec_json : Json),
      load_file_from env.fs compare_spec_locations = (evs1, Except.ok spec_text) →
      Json.parse spec_text = some spec_json →
      resolve_system_prompt env = (evs2, Except.ok prompt_text) →
      '/' ∉ repo.data →
      generate_pr_text env repo base head ci =
        (evs1 ++ evs2, Except.error PyErr.indexError) ∧
      (∀ e ∈ evs1 ++ evs2, ∃ u, e = Event.httpGet u)) := by
  constructor
  · intro env repo base head ci a b rest h
    have hown : repoOwnerProject repo = some (String.mk a, String.mk b) := by
      unfold repoOwnerProject
      rw [h]
    have hano : '/' ∉ a :=
      splitSlash_seg_no_slash repo.data a (h ▸ List.mem_cons_self _ _)
    have hbno : '/' ∉ b :=
      splitSlash_seg_no_slash repo.data b
        (by rw [h]; exact List.mem_cons_of_mem _ (List.mem_cons_self _ _))
    have hown2 : repoOwnerProject (String.mk (a ++ '/' :: b)) =
        some (String.mk a, String.mk b) := by
      unfold repoOwnerProject
      rw [show (String.mk (a ++ '/' :: b)).data = a ++ '/' :: b from rfl]
      rw [splitSlash_append_slash a b hano, splitSlash_of_no_slash b hbno]
    exact ⟨hown, generate_congr env repo _ base head ci (hown.trans hown2.symm)⟩
  · intro env repo base head ci evs1 evs2 spec_text prompt_text spec_json h1 hj h2 hns
    constructor
    · unfold generate_pr_text
      rw [h1]
      simp only [afterSpecLoad, hj, h2]
      simp only [afterPrompt, repoOwnerProject_none repo hns]
    · intro e he
      rcases List.mem_append.mp he with hh | hh
      · refine load_events_are_gets env.fs compare_spec_locations e ?_
        rw [h1]
        exact hh
      · refine resolve_prompt_events env e ?_
        rw [h2]
        exact hh

/-- C10 amended, applied at a three-segment repository identifier (the third
segment is ignored) and at a slash-free identifier in a world with local
artifact files (no network event precedes the IndexError). -/
theorem C10_witness :
    (repoOwnerProject "a/b/c" = some ("a", "b") ∧
     generate_pr_text prEnvLocalFiles "a/b/c" "main" "feat" none =
       generate_pr_text prEnvLocalFiles "a/b" "main" "feat" none) ∧
    (generate_pr_text prEnvLocalFiles "norepo" "main" "feat" none =
       ([], Except.error PyErr.indexError) ∧
     ∀ e ∈ ([] : List Event), ∃ u, e = Event.httpGet u) := by
  constructor
  · have h := C10_amended.1 prEnvLocalFiles "a/b/c" "main" "feat" none
      ['a'] ['b'] [['c']] (by decide)
    exact ⟨h.1, h.2⟩
  · exact C10_amended.2 prEnvLocalFiles "norepo" "main" "feat" none
      [] [] "\x7b\x7d" "PROMPT" (Json.obj []) rfl rfl rfl (by decide)
